import Mathlib

/-!
# Verification of the PayForMyMembership analysis pipeline

Shallow embedding of the market-analysis code of the repository
(`osrs.js`, `eve.js`, `src/osrs.js`, `src/eve.js`), together with proofs
about the claims of its specification.

JavaScript numbers are IEEE-754 doubles; this embedding idealizes finite
values as exact rationals (`ℚ`).  A division whose JS result is non-finite
(`Infinity`, `-Infinity` or `NaN` — all arising from a zero divisor in this
code) is modeled by `none` in an `Option ℚ` result; the helpers below record
how the JS comparisons appearing in the code behave on those non-finite
values.  `Math.sqrt` has no exact rational counterpart, so the functions
that use it take the square-root operation as an explicit parameter; every
theorem below holds for all interpretations of that parameter.
-/

/-- JS division `a / b`: `none` models the non-finite result
(`Infinity`, `-Infinity` or `NaN`) produced when `b = 0`. -/
def jsDiv (a b : ℚ) : Option ℚ :=
  if b = 0 then none else some (a / b)

/-- `Math.floor(budget / price)` as computed by JS: `none` models the
non-finite values (`Infinity` for `budget > 0`, `-Infinity` for
`budget < 0`, `NaN` for `budget = 0`) produced when `price = 0`. -/
def jsUnits (budget price : ℚ) : Option ℤ :=
  if price = 0 then none else some ⌊budget / price⌋

/-- The JS comparison `units > bound` where `units = Math.floor(budget/price)`:
a non-finite `units` is `Infinity` exactly when `0 < budget`, and
`Infinity > bound` is true while `-Infinity > bound` and `NaN > bound`
are false. -/
def jsUnitsGt (budget : ℚ) (units : Option ℤ) (bound : ℚ) : Bool :=
  match units with
  | some u => decide (bound < (u : ℚ))
  | none => decide (0 < budget)

/-- The JS comparison `units <= bound`: a non-finite `units` is `-Infinity`
exactly when `budget < 0`, and `-Infinity <= bound` is true while
`Infinity <= bound` and `NaN <= bound` are false. -/
def jsUnitsLe (budget : ℚ) (units : Option ℤ) (bound : ℚ) : Bool :=
  match units with
  | some u => decide ((u : ℚ) ≤ bound)
  | none => decide (budget < 0)

/-- `Math.round`: round half toward positive infinity. -/
def jsRound (q : ℚ) : ℤ := ⌊q + 1 / 2⌋

/-- Whitespace skipped by `parseFloat` and removed by `trim`
(ASCII fragment; the inputs considered below contain no exotic spaces). -/
def jsIsSpace (c : Char) : Bool :=
  c = ' ' ∨ c = '\t' ∨ c = '\n' ∨ c = '\r'

/-- `String.prototype.trim`: strip leading and trailing whitespace. -/
def jsTrim (s : List Char) : List Char :=
  ((s.dropWhile jsIsSpace).reverse.dropWhile jsIsSpace).reverse

/-- Numeric value of a digit string, most significant digit first. -/
def natOfDigits (ds : List Char) : ℕ :=
  ds.foldl (fun acc c => acc * 10 + (c.toNat - '0'.toNat)) 0

/-- The exponent part accepted by `parseFloat` after the mantissa:
`e`/`E`, an optional sign and at least one digit; anything else
(including a dangling `e`) is trailing garbage and contributes factor 1. -/
def jsReadExponent (s : List Char) : ℤ :=
  match s with
  | 'e' :: rest | 'E' :: rest =>
    match rest with
    | '-' :: ds => if (ds.takeWhile (·.isDigit)).isEmpty then 0
        else -(natOfDigits (ds.takeWhile (·.isDigit)) : ℤ)
    | '+' :: ds => if (ds.takeWhile (·.isDigit)).isEmpty then 0
        else (natOfDigits (ds.takeWhile (·.isDigit)) : ℤ)
    | ds => if (ds.takeWhile (·.isDigit)).isEmpty then 0
        else (natOfDigits (ds.takeWhile (·.isDigit)) : ℤ)
  | _ => 0

/-- Character-level stage of JS `parseFloat`: skip leading whitespace, read
an optional sign and the longest prefix shaped like a decimal literal,
ignore trailing garbage.  Returns `none` (JS `NaN`) when no digit was read,
otherwise the sign, the integer digits, the fraction digits and the
exponent value. -/
def jsParseFloatParts (s : List Char) : Option (Bool × List Char × List Char × ℤ) :=
  let s1 := s.dropWhile jsIsSpace
  let neg := s1.head? = some '-'
  let s2 := if s1.head? = some '-' ∨ s1.head? = some '+' then s1.tail else s1
  let intDigits := s2.takeWhile (·.isDigit)
  let s3 := s2.dropWhile (·.isDigit)
  let fracDigits := if s3.head? = some '.' then s3.tail.takeWhile (·.isDigit) else []
  let s4 := if s3.head? = some '.' then s3.tail.dropWhile (·.isDigit) else s3
  if intDigits.isEmpty ∧ fracDigits.isEmpty then none
  else some (neg, intDigits, fracDigits, jsReadExponent s4)

/-- JS `parseFloat`: the numeric value of the parsed decimal literal, `none`
modeling `NaN`.  (`Infinity` literals are not modeled; no input considered
below contains them.) -/
def jsParseFloat (s : List Char) : Option ℚ :=
  (jsParseFloatParts s).map fun (neg, intDigits, fracDigits, e) =>
    (if neg then -1 else 1)
      * ((natOfDigits intDigits : ℚ) + (natOfDigits fracDigits : ℚ) / 10 ^ fracDigits.length)
      * (10 : ℚ) ^ e

namespace OSRS

/-- One point of the OSRS price graph (`convertToArray` output shape). -/
structure PricePoint where
  timestamp : ℤ
  price : ℚ
deriving DecidableEq

/-- `calculatePriceChange` (osrs.js): percentage change between the first
and last price.  There is no guard for `firstPrice = 0`: the JS division
then yields a non-finite number, modeled by `none`.  (The `getD 0`
defaults are unreachable: under the `else` branch the list has ≥ 2
elements.) -/
def calculatePriceChange (prices : List PricePoint) : Option ℚ :=
  if prices.length < 2 then some 0
  else
    let firstPrice := (prices.head?.map (·.price)).getD 0
    let lastPrice := (prices.getLast?.map (·.price)).getD 0
    (jsDiv (lastPrice - firstPrice) firstPrice).map (· * 100)

/-- `calculateVolatility` (osrs.js): population standard deviation of the
prices as a percentage of their mean, with `Math.sqrt` passed in as `sqrt`.
There is no guard for `mean = 0`: the JS division then yields a non-finite
number, modeled by `none`.  (The divisions by `priceValues.length` are by a
nonzero number, since the list has ≥ 2 elements in that branch.) -/
def calculateVolatility (sqrt : ℚ → ℚ) (prices : List PricePoint) : Option ℚ :=
  if prices.length < 2 then some 0
  else
    let priceValues := prices.map (·.price)
    let mean := priceValues.sum / (priceValues.length : ℚ)
    let squaredDiffs := priceValues.map (fun price => (price - mean) ^ 2)
    let variance := squaredDiffs.sum / (priceValues.length : ℚ)
    let stdDev := sqrt variance
    (jsDiv stdDev mean).map (· * 100)

/-- `calculateMomentum` (osrs.js): mean of the last 30 prices versus the
mean of the 30 before them (`slice(-30)` and `slice(-60, -30)`), as a
percentage of the latter.  `none` models the non-finite JS result when the
previous-window mean is 0. -/
def calculateMomentum (prices : List PricePoint) : Option ℚ :=
  if prices.length < 60 then some 0
  else
    let recent30 := prices.drop (prices.length - 30)
    let previous30 := (prices.drop (prices.length - 60)).take 30
    let recent30Avg := (recent30.map (·.price)).sum / (recent30.length : ℚ)
    let previous30Avg := (previous30.map (·.price)).sum / (previous30.length : ℚ)
    (jsDiv (recent30Avg - previous30Avg) previous30Avg).map (· * 100)

/-- Volatility bucket of the OSRS score: up to +25, maxed out at 20%. -/
def volatilityBucket (volatility : ℚ) : ℚ :=
  if 20 ≤ volatility then 25 else volatility / 20 * 25

/-- Momentum bucket of the OSRS score: `Math.min(momentum * 2.5, 25)`,
added unconditionally (also when momentum is negative). -/
def momentumBucket (momentum : ℚ) : ℚ :=
  min (momentum * 2.5) 25

/-- Price-change bucket of the OSRS score: up to +20, maxed out at 40%. -/
def priceChangeBucket (priceChange : ℚ) : ℚ :=
  if 40 ≤ priceChange then 20
  else if 0 < priceChange then priceChange / 40 * 20
  else 0

/-- Affordability bucket of the OSRS score, from
`Math.min(budget / currentPrice, 50)`.  When `currentPrice = 0` the JS
quotient is non-finite: `Infinity` (for positive budget) passes the top
tier via `min(Infinity, 50) = 50`, while `-Infinity` and `NaN` fall
through every tier. -/
def affordabilityBucket (currentPrice budget : ℚ) : ℚ :=
  if currentPrice = 0 then (if 0 < budget then 20 else 0)
  else
    let affordability := min (budget / currentPrice) 50
    if 50 ≤ affordability then 20
    else if 20 ≤ affordability then 15
    else if 10 ≤ affordability then 10
    else if 5 ≤ affordability then 5
    else 0

/-- Hot-item bonus of the OSRS score. -/
def breakoutBonus (priceChange volatility momentum : ℚ) : ℚ :=
  if 10 < momentum ∧ 30 < priceChange ∧ 15 < volatility then 10 else 0

/-- `calculateInvestmentScore` (osrs.js): base 50 plus the additive buckets,
clamped to `[0, 100]` by `Math.max(0, Math.min(100, score))`. -/
def calculateInvestmentScore
    (priceChange volatility momentum currentPrice budget : ℚ) : ℚ :=
  let score := 50 + volatilityBucket volatility + momentumBucket momentum
    + priceChangeBucket priceChange + affordabilityBucket currentPrice budget
    + breakoutBonus priceChange volatility momentum
  max 0 (min 100 score)

/-- `parseGoldAmount` (osrs.js): lowercase, trim, strip commas, then
`parseFloat` with a `k`/`m`/`b` suffix multiplier.  `none` models `NaN`. -/
def parseGoldAmount (input : String) : Option ℚ :=
  let cleaned := (jsTrim (input.data.map Char.toLower)).filter (fun c => ¬ c = ',')
  if cleaned.getLast? = some 'k' then (jsParseFloat cleaned).map (· * 1000)
  else if cleaned.getLast? = some 'm' then (jsParseFloat cleaned).map (· * 1000000)
  else if cleaned.getLast? = some 'b' then (jsParseFloat cleaned).map (· * 1000000000)
  else jsParseFloat cleaned

/-- One entry of the OSRS item-database dump, with the fields the catalog
filter of `runOSRS` reads; `none` models an absent (`undefined`) field,
and for `name` also the JS-falsy empty string is checked. -/
structure CatalogItem where
  name : Option String
  price : Option ℚ
  volume : Option ℚ
  limit : Option ℚ
  members : Option Bool
deriving DecidableEq

/-- The catalog filter of `runOSRS` in `src/osrs.js` (the earlier variant):
its required-data check also rejects entries whose `limit` field is absent. -/
def filterItemV1 (includeMembers : Bool) (budget : ℚ) (item : CatalogItem) : Bool :=
  if item.name = none ∨ item.name = some "" ∨ item.price = none
      ∨ item.volume = none ∨ item.limit = none then false
  else if includeMembers = false ∧ item.members ≠ some false then false
  else
    let unitsCanBuy := jsUnits budget (item.price.getD 0)
    if jsUnitsGt budget unitsCanBuy (item.limit.getD 0) then false
    else
      let volumeThreshold := item.volume.getD 0 * 0.1
      if jsUnitsGt budget unitsCanBuy volumeThreshold then false
      else true

/-- The catalog filter of `runOSRS` / `runOSRSAutomated` in
`src/src/osrs.js` (the later variant): the buy-limit check applies only
when the `limit` field exists. -/
def filterItemV2 (includeMembers : Bool) (budget : ℚ) (item : CatalogItem) : Bool :=
  if item.name = none ∨ item.name = some "" ∨ item.price = none
      ∨ item.volume = none then false
  else if includeMembers = false ∧ item.members ≠ some false then false
  else
    let unitsCanBuy := jsUnits budget (item.price.getD 0)
    if (match item.limit with
        | some l => jsUnitsGt budget unitsCanBuy l
        | none => false) then false
    else
      let volumeThreshold := item.volume.getD 0 * 0.1
      if jsUnitsGt budget unitsCanBuy volumeThreshold then false
      else true

/-- The object returned by `analyzeItem` (osrs.js).  Numeric fields that the
source stores as `toFixed` strings are modeled by their parsed numeric
value; a score string that does not denote a finite number is outside this
model. -/
structure AnalysisResult where
  id : ℤ
  name : String
  currentPrice : ℚ
  startPrice : ℚ
  unitsCanBuy : Option ℤ
  priceChange : ℚ
  volatility : ℚ
  momentum : ℚ
  investmentScore : ℚ
  dataPoints : ℕ
deriving DecidableEq

/-- The ranking step of `runOSRS` / `runOSRSAutomated`:
`results.sort((a, b) => parseFloat(b.investmentScore) - parseFloat(a.investmentScore))`.
`Array.prototype.sort` is stable (ECMA-262), and with this comparator `a`
must precede `b` exactly when `a`'s score is larger; the unique stable
result is insertion sort with the non-strict relation below. -/
def sortResults (results : List AnalysisResult) : List AnalysisResult :=
  results.insertionSort (fun a b => b.investmentScore ≤ a.investmentScore)

/-- `results.slice(0, 3)` after sorting: the displayed top-3 list of
`runOSRS` (the automated variant slices 10; the claim is proved for every
slice size). -/
def topRecommendations (results : List AnalysisResult) (count : ℕ) :
    List AnalysisResult :=
  (sortResults results).take count

end OSRS

namespace EVE

/-- One record of the ESI market-history payload, with the fields the
analyzer reads. -/
structure MarketDay where
  date : ℤ
  average : ℚ
  volume : ℚ
deriving DecidableEq

/-- `calculatePriceChange` (eve.js), identical to the OSRS one but reading
the `average` field.  No guard for a zero first price: `none` models the
non-finite JS result. -/
def calculatePriceChange (history : List MarketDay) : Option ℚ :=
  if history.length < 2 then some 0
  else
    let firstPrice := (history.head?.map (·.average)).getD 0
    let lastPrice := (history.getLast?.map (·.average)).getD 0
    (jsDiv (lastPrice - firstPrice) firstPrice).map (· * 100)

/-- `calculateVolatility` (eve.js), with `Math.sqrt` passed in as `sqrt`.
No guard for a zero mean: `none` models the non-finite JS result. -/
def calculateVolatility (sqrt : ℚ → ℚ) (history : List MarketDay) : Option ℚ :=
  if history.length < 2 then some 0
  else
    let prices := history.map (·.average)
    let mean := prices.sum / (prices.length : ℚ)
    let squaredDiffs := prices.map (fun price => (price - mean) ^ 2)
    let variance := squaredDiffs.sum / (prices.length : ℚ)
    let stdDev := sqrt variance
    (jsDiv stdDev mean).map (· * 100)

/-- `calculateMomentum` (eve.js): 30-day versus preceding 30-day average. -/
def calculateMomentum (history : List MarketDay) : Option ℚ :=
  if history.length < 60 then some 0
  else
    let recent30 := history.drop (history.length - 30)
    let previous30 := (history.drop (history.length - 60)).take 30
    let recent30Avg := (recent30.map (·.average)).sum / (recent30.length : ℚ)
    let previous30Avg := (previous30.map (·.average)).sum / (previous30.length : ℚ)
    (jsDiv (recent30Avg - previous30Avg) previous30Avg).map (· * 100)

/-- Volatility bucket of the EVE score: up to +25, maxed out at 10%. -/
def volatilityBucket (volatility : ℚ) : ℚ :=
  if 10 ≤ volatility then 25 else volatility / 10 * 25

/-- Momentum bucket of the EVE score: `Math.min(momentum * 2.5, 25)`,
added only when `momentum > 0`. -/
def momentumBucket (momentum : ℚ) : ℚ :=
  if 0 < momentum then min (momentum * 2.5) 25 else 0

/-- Price-change bucket of the EVE score: up to +20 maxed out at 20%, with
+10 partial credit for a small dip (between -10% and 0%). -/
def priceChangeBucket (priceChange : ℚ) : ℚ :=
  if 20 ≤ priceChange then 20
  else if 0 < priceChange then priceChange / 20 * 20
  else if priceChange < 0 ∧ -10 < priceChange then 10
  else 0

/-- Affordability bucket of the EVE score, from
`Math.min(budget / currentPrice, 100)`.  When `currentPrice = 0` the JS
quotient is non-finite: `Infinity` (positive budget) passes the top tier
via `min(Infinity, 100) = 100`, while `-Infinity` and `NaN` fall through
every tier. -/
def affordabilityBucket (currentPrice budget : ℚ) : ℚ :=
  if currentPrice = 0 then (if 0 < budget then 20 else 0)
  else
    let affordability := min (budget / currentPrice) 100
    if 100 ≤ affordability then 20
    else if 50 ≤ affordability then 15
    else if 20 ≤ affordability then 10
    else if 10 ≤ affordability then 5
    else 0

/-- Breakout bonus of the EVE score. -/
def breakoutBonus (priceChange volatility momentum : ℚ) : ℚ :=
  if 5 < momentum ∧ 15 < priceChange ∧ 8 < volatility then 10 else 0

/-- `calculateInvestmentScore` (eve.js): base 50 plus the additive buckets,
clamped to `[0, 100]` by `Math.max(0, Math.min(100, score))`. -/
def calculateInvestmentScore
    (priceChange volatility momentum currentPrice budget : ℚ) : ℚ :=
  let score := 50 + volatilityBucket volatility + momentumBucket momentum
    + priceChangeBucket priceChange + affordabilityBucket currentPrice budget
    + breakoutBonus priceChange volatility momentum
  max 0 (min 100 score)

/-- Item identity handed to the analyzer. -/
structure ItemInfo where
  id : ℤ
  name : String
deriving DecidableEq

/-- The object returned by `analyzeItem` (eve.js).  Feature fields that JS
stores as `toFixed` strings are modeled by their numeric value, `none`
standing for a non-finite one; `investmentScore` is `none` when a
non-finite feature flows into the score (JS then propagates `NaN`; the
exact non-finite float arithmetic is not modeled further, and no theorem
below depends on that value). -/
structure AnalysisResult where
  id : ℤ
  name : String
  currentPrice : ℤ
  unitsCanBuy : Option ℤ
  priceChange : Option ℚ
  volatility : Option ℚ
  momentum : Option ℚ
  volume : ℚ
  investmentScore : Option ℚ
  dataPoints : ℕ
deriving DecidableEq

/-- Post-call state of one `analyzeItem(history, itemInfo, budget)` call.
`analyzeItem` sorts the caller's `history` array in place, so the embedding
passes the state explicitly: `history` holds the contents of the caller's
array after the call, and `itemInfo` and `budget` the (unassigned, hence
unchanged) other two arguments. -/
structure AnalyzeCall where
  result : Option AnalysisResult
  history : List MarketDay
  itemInfo : ItemInfo
  budget : ℚ

/-- `history.sort((a, b) => new Date(a.date) - new Date(b.date))`:
`Array.prototype.sort` is stable (ECMA-262), and with this comparator `a`
must precede `b` exactly when its date is earlier; the unique stable result
is insertion sort with the non-strict relation below. -/
def sortByDate (history : List MarketDay) : List MarketDay :=
  history.insertionSort (fun a b => a.date ≤ b.date)

/-- `analyzeItem` (eve.js): returns `null` on an empty history, otherwise
sorts the history in place by date and assembles the analysis record.
(The `getD` defaults for the last element are unreachable on a nonempty
history.) -/
def analyzeItem (sqrt : ℚ → ℚ) (history : List MarketDay) (itemInfo : ItemInfo)
    (budget : ℚ) : AnalyzeCall :=
  if history = [] then ⟨none, history, itemInfo, budget⟩
  else
    let sorted := sortByDate history
    let priceChange := calculatePriceChange sorted
    let volatility := calculateVolatility sqrt sorted
    let momentum := calculateMomentum sorted
    let currentPrice := (sorted.getLast?.map (·.average)).getD 0
    let currentVolume := (sorted.getLast?.map (·.volume)).getD 0
    let unitsCanBuy := jsUnits budget currentPrice
    let investmentScore :=
      match priceChange, volatility, momentum with
      | some pc, some vol, some mom =>
        some (calculateInvestmentScore pc vol mom currentPrice budget)
      | _, _, _ => none
    let analysis : AnalysisResult :=
      { id := itemInfo.id
        name := itemInfo.name
        currentPrice := jsRound currentPrice
        unitsCanBuy := unitsCanBuy
        priceChange := priceChange
        volatility := volatility
        momentum := momentum
        volume := currentVolume
        investmentScore := investmentScore
        dataPoints := sorted.length }
    ⟨some analysis, sorted, itemInfo, budget⟩

/-- Body of one iteration of the `runEVE` analysis loop: fetch the item's
history (`none` models a failed request), skip it on failure or empty
data, otherwise analyze it and push the analysis when the affordable
units do not exceed 10% of the daily volume. -/
def collect (sqrt : ℚ → ℚ) (fetch : ℤ → Option (List MarketDay)) (budget : ℚ)
    (item : ItemInfo) (results : List AnalysisResult) : List AnalysisResult :=
  match fetch item.id with
  | some history =>
    if 0 < history.length then
      match (analyzeItem sqrt history item budget).result with
      | some analysis =>
        let volumeThreshold := analysis.volume * 0.1
        if jsUnitsLe budget analysis.unitsCanBuy volumeThreshold then
          results ++ [analysis]
        else results
      | none => results
    else results
  | none => results

/-- The "keep going until N found" analysis loop of `runEVE`
(`for (let i = 0; i < shuffledItems.length && results.length < itemCount; i++)`).
Returns the collected results together with the `itemsChecked` counter. -/
def runLoop (sqrt : ℚ → ℚ) (fetch : ℤ → Option (List MarketDay)) (budget : ℚ)
    (itemCount : ℕ) :
    List ItemInfo → List AnalysisResult → ℕ → List AnalysisResult × ℕ
  | [], results, itemsChecked => (results, itemsChecked)
  | item :: rest, results, itemsChecked =>
    if results.length < itemCount then
      runLoop sqrt fetch budget itemCount rest
        (collect sqrt fetch budget item results) (itemsChecked + 1)
    else (results, itemsChecked)

/-- `parseISKAmount` (eve.js); character-for-character the same code as
`parseGoldAmount`. -/
def parseISKAmount (input : String) : Option ℚ :=
  let cleaned := (jsTrim (input.data.map Char.toLower)).filter (fun c => ¬ c = ',')
  if cleaned.getLast? = some 'k' then (jsParseFloat cleaned).map (· * 1000)
  else if cleaned.getLast? = some 'm' then (jsParseFloat cleaned).map (· * 1000000)
  else if cleaned.getLast? = some 'b' then (jsParseFloat cleaned).map (· * 1000000000)
  else jsParseFloat cleaned

/-- `parseFloat(r.investmentScore)` as used by the ranking comparator.  A
`none` score corresponds to the string `"NaN"`, for which the JS comparator
is not consistent; such scores are outside the ranking model and read as 0
here. -/
def scoreOf (r : AnalysisResult) : ℚ :=
  r.investmentScore.getD 0

/-- The ranking step of `runEVE` / `runEVEAutomated`:
`results.sort((a, b) => parseFloat(b.investmentScore) - parseFloat(a.investmentScore))`,
a stable descending sort on the score (see `OSRS.sortResults`). -/
def sortResults (results : List AnalysisResult) : List AnalysisResult :=
  results.insertionSort (fun a b => scoreOf b ≤ scoreOf a)

/-- `results.slice(0, 10)` after sorting: the recommendation list returned
by `runEVEAutomated` (proved below for every slice size). -/
def recommendations (results : List AnalysisResult) (count : ℕ) :
    List AnalysisResult :=
  (sortResults results).take count

end EVE

/-! ## Concrete inputs used by counterexamples and witnesses -/

/-- A two-point series whose prices are all 0: its first price and its mean
are both 0. -/
def zeroSeries : List OSRS.PricePoint := [⟨0, 0⟩, ⟨1, 0⟩]

/-- A catalog entry with every required field present but no buy-limit
field. -/
def limitlessItem : OSRS.CatalogItem :=
  { name := some "Iron ore", price := some 100, volume := some 10000
    limit := none, members := some false }

/-- A catalog entry that passes every check of the filters. -/
def acceptedItem : OSRS.CatalogItem :=
  { name := some "Iron ore", price := some 100, volume := some 10000
    limit := some 1000000, members := some false }

/-- A two-day market history, listed newest-first. -/
def sampleHistory : List EVE.MarketDay := [⟨1, 2, 3⟩, ⟨0, 1, 2⟩]

/-- A fetch stub returning one trading day with ample volume. -/
def sampleFetch : ℤ → Option (List EVE.MarketDay) :=
  fun _ => some [⟨0, 1, 100⟩]

/-! ## Helper lemmas -/

theorem clamp_nonneg (s : ℚ) : 0 ≤ max 0 (min 100 s) :=
  le_max_left 0 _

theorem clamp_le_100 (s : ℚ) : max 0 (min 100 s) ≤ 100 :=
  max_le (by norm_num) (min_le_left _ _)

section StableSort

variable {α β : Type} [LinearOrder β]

/-- Inserting an element whose key differs from `q` does not change the
key-`q` sublist. -/
theorem filter_orderedInsert_of_ne (key : α → β) (x : α) (q : β) (hx : key x ≠ q) :
    ∀ l : List α,
      (List.orderedInsert (fun a b => key b ≤ key a) x l).filter
          (fun a => decide (key a = q))
        = l.filter (fun a => decide (key a = q))
  | [] => by simp [List.orderedInsert, hx]
  | b :: l => by
    by_cases hb : key b ≤ key x
    · simp [List.orderedInsert, hb, hx]
    · simp only [List.orderedInsert, if_neg hb, List.filter_cons,
        filter_orderedInsert_of_ne key x q hx l]

/-- Inserting an element with key `q` puts it in front of every key-`q`
element already present: every element it jumps over has a strictly larger
key. -/
theorem filter_orderedInsert_of_eq (key : α → β) (x : α) (q : β) (hx : key x = q) :
    ∀ l : List α,
      (List.orderedInsert (fun a b => key b ≤ key a) x l).filter
          (fun a => decide (key a = q))
        = x :: l.filter (fun a => decide (key a = q))
  | [] => by simp [List.orderedInsert, hx]
  | b :: l => by
    by_cases hb : key b ≤ key x
    · rw [List.orderedInsert, if_pos hb]
      simp [List.filter_cons, hx]
    · have hbq : ¬ (key b = q) := fun h => hb (le_of_eq (h.trans hx.symm))
      rw [List.orderedInsert, if_neg hb]
      simp only [List.filter_cons, decide_eq_true_eq, if_neg hbq,
        filter_orderedInsert_of_eq key x q hx l]

/-- Stability of the descending key sort: for each key value `q`, the
key-`q` elements appear in the sorted list exactly in their original
order. -/
theorem filter_insertionSort (key : α → β) (q : β) :
    ∀ l : List α,
      (l.insertionSort (fun a b => key b ≤ key a)).filter
          (fun a => decide (key a = q))
        = l.filter (fun a => decide (key a = q))
  | [] => rfl
  | x :: l => by
    by_cases hx : key x = q
    · rw [List.insertionSort, filter_orderedInsert_of_eq key x q hx,
        filter_insertionSort key q l, List.filter_cons]
      simp [hx]
    · rw [List.insertionSort, filter_orderedInsert_of_ne key x q hx,
        filter_insertionSort key q l, List.filter_cons]
      simp [hx]

/-- The descending key sort is sorted (non-strictly) by key. -/
theorem sorted_insertionSort_keyDesc (key : α → β) (l : List α) :
    (l.insertionSort (fun a b => key b ≤ key a)).Sorted
      (fun a b => key b ≤ key a) := by
  haveI : IsTotal α (fun a b => key b ≤ key a) := ⟨fun a b => le_total (key b) (key a)⟩
  haveI : IsTrans α (fun a b => key b ≤ key a) :=
    ⟨fun _ _ _ hab hbc => le_trans hbc hab⟩
  exact List.sorted_insertionSort _ l

/-- The ascending key sort is sorted (non-strictly) by key. -/
theorem sorted_insertionSort_keyAsc (key : α → β) (l : List α) :
    (l.insertionSort (fun a b => key a ≤ key b)).Sorted
      (fun a b => key a ≤ key b) := by
  haveI : IsTotal α (fun a b => key a ≤ key b) := ⟨fun a b => le_total (key a) (key b)⟩
  haveI : IsTrans α (fun a b => key a ≤ key b) :=
    ⟨fun _ _ _ hab hbc => le_trans hab hbc⟩
  exact List.sorted_insertionSort _ l

end StableSort

/-- A true `jsUnitsGt`-free liquidity check with positive budget forces a
finite unit count below the bound. -/
theorem jsUnitsGt_eq_false {budget price bound : ℚ} (hb : 0 < budget)
    (h : jsUnitsGt budget (jsUnits budget price) bound = false) :
    ∃ u : ℤ, jsUnits budget price = some u ∧ (u : ℚ) ≤ bound := by
  unfold jsUnits jsUnitsGt at *
  by_cases hp : price = 0
  · rw [if_pos hp] at h
    simp [hb] at h
  · rw [if_neg hp] at h ⊢
    exact ⟨⌊budget / price⌋, rfl, not_lt.mp (by simpa using h)⟩

/-- A true `jsUnitsLe` check with positive budget forces a finite unit
count below the bound. -/
theorem jsUnitsLe_eq_true {budget bound : ℚ} {units : Option ℤ} (hb : 0 < budget)
    (h : jsUnitsLe budget units bound = true) :
    ∃ u : ℤ, units = some u ∧ (u : ℚ) ≤ bound := by
  cases units with
  | none =>
    unfold jsUnitsLe at h
    simp [not_lt.mpr hb.le] at h
  | some u =>
    unfold jsUnitsLe at h
    exact ⟨u, rfl, by simpa using h⟩

/-- One loop step appends at most one result. -/
theorem collect_length (sqrt : ℚ → ℚ) (fetch : ℤ → Option (List EVE.MarketDay))
    (budget : ℚ) (item : EVE.ItemInfo) (results : List EVE.AnalysisResult) :
    (EVE.collect sqrt fetch budget item results).length ≤ results.length + 1 := by
  unfold EVE.collect
  rcases hf : fetch item.id with _ | history <;> simp only [hf]
  · exact Nat.le_succ _
  · by_cases hh : 0 < history.length
    · rw [if_pos hh]
      rcases ha : (EVE.analyzeItem sqrt history item budget).result
          with _ | analysis <;> simp only [ha]
      · exact Nat.le_succ _
      · by_cases hle :
            jsUnitsLe budget analysis.unitsCanBuy (analysis.volume * 0.1) = true
        · rw [if_pos hle]
          simp
        · rw [if_neg hle]
          exact Nat.le_succ _
    · rw [if_neg hh]
      exact Nat.le_succ _

/-- A result produced by a loop step either was already collected or passed
the volume check (stated at the result itself, whose `volume` field is the
daily volume the check used). -/
theorem mem_collect (sqrt : ℚ → ℚ) (fetch : ℤ → Option (List EVE.MarketDay))
    (budget : ℚ) (item : EVE.ItemInfo) (results : List EVE.AnalysisResult) :
    ∀ r ∈ EVE.collect sqrt fetch budget item results,
      r ∈ results ∨ jsUnitsLe budget r.unitsCanBuy (r.volume * 0.1) = true := by
  intro r hr
  unfold EVE.collect at hr
  rcases hf : fetch item.id with _ | history <;> simp only [hf] at hr
  · exact Or.inl hr
  · by_cases hh : 0 < history.length
    · rw [if_pos hh] at hr
      rcases ha : (EVE.analyzeItem sqrt history item budget).result
          with _ | analysis <;> simp only [ha] at hr
      · exact Or.inl hr
      · by_cases hle :
            jsUnitsLe budget analysis.unitsCanBuy (analysis.volume * 0.1) = true
        · rw [if_pos hle] at hr
          rcases List.mem_append.mp hr with h | h
          · exact Or.inl h
          · rcases List.mem_singleton.mp h with rfl
            exact Or.inr hle
        · rw [if_neg hle] at hr
          exact Or.inl hr
    · rw [if_neg hh] at hr
      exact Or.inl hr

/-- Loop invariant: starting from an accumulator within the target count,
the loop never exceeds the target, and it returns either having reached the
target exactly or having checked every remaining candidate. -/
theorem runLoop_invariant (sqrt : ℚ → ℚ) (fetch : ℤ → Option (List EVE.MarketDay))
    (budget : ℚ) (itemCount : ℕ) :
    ∀ (items : List EVE.ItemInfo) (results : List EVE.AnalysisResult) (checked : ℕ),
      results.length ≤ itemCount →
      (EVE.runLoop sqrt fetch budget itemCount items results checked).1.length ≤ itemCount ∧
      ((EVE.runLoop sqrt fetch budget itemCount items results checked).1.length = itemCount ∨
        (EVE.runLoop sqrt fetch budget itemCount items results checked).2
          = checked + items.length)
  | [], results, checked, h => by
    refine ⟨by simpa [EVE.runLoop] using h, Or.inr ?_⟩
    simp [EVE.runLoop]
  | item :: rest, results, checked, h => by
    simp only [EVE.runLoop]
    by_cases hlt : results.length < itemCount
    · rw [if_pos hlt]
      have hc := collect_length sqrt fetch budget item results
      obtain ⟨h1, h2⟩ := runLoop_invariant sqrt fetch budget itemCount rest
        (EVE.collect sqrt fetch budget item results) (checked + 1) (by omega)
      refine ⟨h1, ?_⟩
      rcases h2 with h2 | h2
      · exact Or.inl h2
      · refine Or.inr ?_
        rw [h2, List.length_cons]
        omega
    · rw [if_neg hlt]
      have heq : results.length = itemCount := le_antisymm h (not_lt.mp hlt)
      exact ⟨le_of_eq heq, Or.inl heq⟩

/-- Every collected result passed the volume check, provided the initial
accumulator did. -/
theorem runLoop_mem (sqrt : ℚ → ℚ) (fetch : ℤ → Option (List EVE.MarketDay))
    (budget : ℚ) (itemCount : ℕ) :
    ∀ (items : List EVE.ItemInfo) (results : List EVE.AnalysisResult) (checked : ℕ),
      (∀ r ∈ results, jsUnitsLe budget r.unitsCanBuy (r.volume * 0.1) = true) →
      ∀ r ∈ (EVE.runLoop sqrt fetch budget itemCount items results checked).1,
        jsUnitsLe budget r.unitsCanBuy (r.volume * 0.1) = true
  | [], results, checked, hres => by simpa [EVE.runLoop] using hres
  | item :: rest, results, checked, hres => by
    simp only [EVE.runLoop]
    by_cases hlt : results.length < itemCount
    · rw [if_pos hlt]
      exact runLoop_mem sqrt fetch budget itemCount rest _ (checked + 1)
        (fun r hr => (mem_collect sqrt fetch budget item results r hr).elim (hres r) id)
    · rw [if_neg hlt]
      exact hres

/-! ## Claim theorems -/

/-- Claim C1: for every real-valued (non-NaN) combination of features with
positive current price and budget, `calculateInvestmentScore` of both
market variants returns a value in the closed interval `[0, 100]`,
including for arbitrarily large or arbitrarily negative feature values:
the final `Math.max(0, Math.min(100, score))` clamp guarantees it. -/
theorem claim1_score_in_range
    (priceChange volatility momentum currentPrice budget : ℚ)
    (hp : 0 < currentPrice) (hb : 0 < budget) :
    (0 ≤ OSRS.calculateInvestmentScore priceChange volatility momentum currentPrice budget
      ∧ OSRS.calculateInvestmentScore priceChange volatility momentum currentPrice budget ≤ 100)
  ∧ (0 ≤ EVE.calculateInvestmentScore priceChange volatility momentum currentPrice budget
      ∧ EVE.calculateInvestmentScore priceChange volatility momentum currentPrice budget ≤ 100) :=
  ⟨⟨clamp_nonneg _, clamp_le_100 _⟩, ⟨clamp_nonneg _, clamp_le_100 _⟩⟩

/-- Witness for C1 at a concrete extreme input. -/
theorem claim1_score_in_range_witness :
    (0 : ℚ) < 7 ∧ (0 : ℚ) < 2500000
  ∧ ((0 ≤ OSRS.calculateInvestmentScore (-1000000) 1000000 (-1000000) 7 2500000
        ∧ OSRS.calculateInvestmentScore (-1000000) 1000000 (-1000000) 7 2500000 ≤ 100)
      ∧ (0 ≤ EVE.calculateInvestmentScore (-1000000) 1000000 (-1000000) 7 2500000
        ∧ EVE.calculateInvestmentScore (-1000000) 1000000 (-1000000) 7 2500000 ≤ 100)) :=
  ⟨by norm_num, by norm_num,
    claim1_score_in_range (-1000000) 1000000 (-1000000) 7 2500000
      (by norm_num) (by norm_num)⟩

/-- Claim C2 is false for the OSRS variant: at momentum `-10` (which is
≤ 0) the momentum bucket contributes `-25`, not `0`, and it lowers the
final score (from 50 at zero momentum to 25), i.e. it subtracts from the
score before clamping. -/
theorem claim2_counterexample :
    (-10 : ℚ) ≤ 0
  ∧ OSRS.momentumBucket (-10) = -25
  ∧ OSRS.calculateInvestmentScore 0 0 (-10) 1 1 = 25
  ∧ OSRS.calculateInvestmentScore 0 0 0 1 1 = 50 := by
  refine ⟨by norm_num, ?_, ?_, ?_⟩
  · norm_num [OSRS.momentumBucket, min_def]
  · norm_num [OSRS.calculateInvestmentScore, OSRS.volatilityBucket,
      OSRS.momentumBucket, OSRS.priceChangeBucket, OSRS.affordabilityBucket,
      OSRS.breakoutBonus, min_def, max_def]
  · norm_num [OSRS.calculateInvestmentScore, OSRS.volatilityBucket,
      OSRS.momentumBucket, OSRS.priceChangeBucket, OSRS.affordabilityBucket,
      OSRS.breakoutBonus, min_def, max_def]

/-- Claim C2 (amended): in the EVE variant the momentum bucket is exactly
0 for every momentum ≤ 0, while the OSRS variant adds
`min(momentum × 2.5, 25)` unconditionally, so a strictly negative momentum
contributes a strictly negative amount to the score before clamping. -/
theorem claim2_amended (m : ℚ) (hm : m ≤ 0) :
    EVE.momentumBucket m = 0 ∧ (m < 0 → OSRS.momentumBucket m < 0) := by
  constructor
  · unfold EVE.momentumBucket
    rw [if_neg (not_lt.mpr hm)]
  · intro hm'
    unfold OSRS.momentumBucket
    calc min (m * 2.5) 25 ≤ m * 2.5 := min_le_left _ _
    _ < 0 := mul_neg_of_neg_of_pos hm' (by norm_num)

/-- Witness for the amended C2 at momentum `-10`. -/
theorem claim2_amended_witness :
    (-10 : ℚ) ≤ 0
  ∧ (EVE.momentumBucket (-10) = 0 ∧ ((-10 : ℚ) < 0 → OSRS.momentumBucket (-10) < 0)) :=
  ⟨by norm_num, claim2_amended (-10) (by norm_num)⟩

/-- Claim C8: every series with fewer than 2 points yields all-zero
features from the three extractors of both market variants (the Lean
functions are total, reflecting that no exception is raised). -/
theorem claim8_short_series_zero_features (sqrt : ℚ → ℚ)
    (prices : List OSRS.PricePoint) (history : List EVE.MarketDay)
    (hp : prices.length < 2) (hh : history.length < 2) :
    (OSRS.calculatePriceChange prices = some 0
      ∧ OSRS.calculateVolatility sqrt prices = some 0
      ∧ OSRS.calculateMomentum prices = some 0)
  ∧ (EVE.calculatePriceChange history = some 0
      ∧ EVE.calculateVolatility sqrt history = some 0
      ∧ EVE.calculateMomentum history = some 0) := by
  refine ⟨⟨?_, ?_, ?_⟩, ⟨?_, ?_, ?_⟩⟩
  · unfold OSRS.calculatePriceChange
    rw [if_pos hp]
  · unfold OSRS.calculateVolatility
    rw [if_pos hp]
  · unfold OSRS.calculateMomentum
    rw [if_pos (by omega)]
  · unfold EVE.calculatePriceChange
    rw [if_pos hh]
  · unfold EVE.calculateVolatility
    rw [if_pos hh]
  · unfold EVE.calculateMomentum
    rw [if_pos (by omega)]

/-- Witness for C8 at the empty series. -/
theorem claim8_witness :
    ([] : List OSRS.PricePoint).length < 2 ∧ ([] : List EVE.MarketDay).length < 2
  ∧ ((OSRS.calculatePriceChange [] = some 0
        ∧ OSRS.calculateVolatility id [] = some 0
        ∧ OSRS.calculateMomentum [] = some 0)
      ∧ (EVE.calculatePriceChange [] = some 0
        ∧ EVE.calculateVolatility id [] = some 0
        ∧ EVE.calculateMomentum [] = some 0)) :=
  ⟨by simp, by simp,
    claim8_short_series_zero_features id [] [] (by simp) (by simp)⟩

/-- Claim C9: under "keep going until N found" semantics, from any
accumulator within the target count the loop keeps the collected-results
count within `itemCount`, and it stops exactly when the target count is
reached or every candidate was checked (the checked counter then accounts
for the whole remaining catalog). -/
theorem claim9_loop_invariant (sqrt : ℚ → ℚ)
    (fetch : ℤ → Option (List EVE.MarketDay)) (budget : ℚ) (itemCount : ℕ)
    (items : List EVE.ItemInfo) (results : List EVE.AnalysisResult) (checked : ℕ)
    (h : results.length ≤ itemCount) :
    (EVE.runLoop sqrt fetch budget itemCount items results checked).1.length ≤ itemCount
  ∧ ((EVE.runLoop sqrt fetch budget itemCount items results checked).1.length = itemCount
      ∨ (EVE.runLoop sqrt fetch budget itemCount items results checked).2
          = checked + items.length) :=
  runLoop_invariant sqrt fetch budget itemCount items results checked h

/-- Witness for C9 on a one-item catalog. -/
theorem claim9_witness :
    ([] : List EVE.AnalysisResult).length ≤ 3
  ∧ ((EVE.runLoop id sampleFetch 1000 3 [⟨34, "Tritanium"⟩] [] 0).1.length ≤ 3
      ∧ ((EVE.runLoop id sampleFetch 1000 3 [⟨34, "Tritanium"⟩] [] 0).1.length = 3
          ∨ (EVE.runLoop id sampleFetch 1000 3 [⟨34, "Tritanium"⟩] [] 0).2
              = 0 + [(⟨34, "Tritanium"⟩ : EVE.ItemInfo)].length)) :=
  ⟨by simp, claim9_loop_invariant id sampleFetch 1000 3 [⟨34, "Tritanium"⟩] [] 0 (by simp)⟩

/-- Claim C10: `analyzeItem` (EVE) reorders the caller's history array as a
side effect: after a call on a nonempty history, the caller's array holds a
chronologically sorted (by `date`) permutation of its previous contents,
while `itemInfo` and `budget` are left unchanged. -/
theorem claim10_analyzeItem_sorts_in_place (sqrt : ℚ → ℚ)
    (history : List EVE.MarketDay) (item : EVE.ItemInfo) (budget : ℚ)
    (h : history ≠ []) :
    (EVE.analyzeItem sqrt history item budget).history.Perm history
  ∧ (EVE.analyzeItem sqrt history item budget).history.Sorted
      (fun a b => a.date ≤ b.date)
  ∧ (EVE.analyzeItem sqrt history item budget).itemInfo = item
  ∧ (EVE.analyzeItem sqrt history item budget).budget = budget := by
  unfold EVE.analyzeItem
  rw [if_neg h]
  exact ⟨List.perm_insertionSort _ history,
    sorted_insertionSort_keyAsc (·.date) history, rfl, rfl⟩

/-- Witness for C10 on a two-day history given newest-first. -/
theorem claim10_witness :
    sampleHistory ≠ []
  ∧ ((EVE.analyzeItem id sampleHistory ⟨34, "Tritanium"⟩ 1000).history.Perm sampleHistory
      ∧ (EVE.analyzeItem id sampleHistory ⟨34, "Tritanium"⟩ 1000).history.Sorted
          (fun a b => a.date ≤ b.date)
      ∧ (EVE.analyzeItem id sampleHistory ⟨34, "Tritanium"⟩ 1000).itemInfo
          = ⟨34, "Tritanium"⟩
      ∧ (EVE.analyzeItem id sampleHistory ⟨34, "Tritanium"⟩ 1000).budget = 1000) :=
  ⟨by simp [sampleHistory],
    claim10_analyzeItem_sorts_in_place id sampleHistory ⟨34, "Tritanium"⟩ 1000
      (by simp [sampleHistory])⟩

/-- Claim C3 is false for the earlier filter (`src/osrs.js`): this entry
has name, price and volume, passes the membership filter (members-only
flag false), satisfies the liquidity rule, and lacks only the `limit`
field — yet the filter rejects it. -/
theorem claim3_counterexample :
    limitlessItem.limit = none
  ∧ limitlessItem.name = some "Iron ore"
  ∧ limitlessItem.price = some 100
  ∧ limitlessItem.volume = some 10000
  ∧ limitlessItem.members = some false
  ∧ jsUnitsGt 1000 (jsUnits 1000 (limitlessItem.price.getD 0))
      (limitlessItem.volume.getD 0 * 0.1) = false
  ∧ OSRS.filterItemV1 true 1000 limitlessItem = false := by
  refine ⟨rfl, rfl, rfl, rfl, rfl, ?_, ?_⟩
  · norm_num [jsUnits, jsUnitsGt, limitlessItem]
  · norm_num [OSRS.filterItemV1, limitlessItem]

/-- Claim C3 (amended): in the later filter (`src/src/osrs.js`,
`runOSRS`/`runOSRSAutomated`) an entry is never rejected solely for a
missing limit field: with name, price and volume present, the membership
filter passed, and the liquidity rule satisfied, an entry without a limit
field is accepted.  In the earlier filter (`src/osrs.js`) an entry without
a limit field is always rejected by the required-data check. -/
theorem claim3_amended :
    (∀ (inc : Bool) (budget : ℚ) (item : OSRS.CatalogItem),
      item.name ≠ none → item.name ≠ some "" → item.price ≠ none →
      item.volume ≠ none → (inc = true ∨ item.members = some false) →
      item.limit = none →
      jsUnitsGt budget (jsUnits budget (item.price.getD 0))
        (item.volume.getD 0 * 0.1) = false →
      OSRS.filterItemV2 inc budget item = true)
  ∧ (∀ (inc : Bool) (budget : ℚ) (item : OSRS.CatalogItem),
      item.limit = none → OSRS.filterItemV1 inc budget item = false) := by
  constructor
  · intro inc budget item hn hn' hp hv hmem hlimit hliq
    have hm : ¬ (inc = false ∧ item.members ≠ some false) := by
      rcases hmem with h | h
      · simp [h]
      · simp [h]
    simp [OSRS.filterItemV2, hn, hn', hp, hv, hm, hlimit, hliq]
  · intro inc budget item hlimit
    simp [OSRS.filterItemV1, hlimit]

/-- Witness for the amended C3 at the concrete limitless entry. -/
theorem claim3_amended_witness :
    OSRS.filterItemV2 true 1000 limitlessItem = true
  ∧ OSRS.filterItemV1 true 1000 limitlessItem = false :=
  ⟨claim3_amended.1 true 1000 limitlessItem (by decide) (by decide) (by decide)
      (by decide) (Or.inl rfl) rfl (by norm_num [jsUnits, jsUnitsGt, limitlessItem]),
    claim3_amended.2 true 1000 limitlessItem rfl⟩

/-- Claim C4 is false: on a 2-point series whose first price is 0 (and
whose mean is 0), `calculatePriceChange` and `calculateVolatility` do not
return 0 — they produce the non-finite JS value modeled by `none` (shown
here with `Math.sqrt` interpreted as `id`; the amended theorem shows the
result is `none` for every interpretation). -/
theorem claim4_counterexample :
    2 ≤ zeroSeries.length
  ∧ zeroSeries.head?.map (·.price) = some 0
  ∧ (zeroSeries.map (·.price)).sum / (zeroSeries.length : ℚ) = 0
  ∧ OSRS.calculatePriceChange zeroSeries ≠ some 0
  ∧ OSRS.calculatePriceChange zeroSeries = none
  ∧ OSRS.calculateVolatility id zeroSeries ≠ some 0
  ∧ OSRS.calculateVolatility id zeroSeries = none := by
  have h1 : OSRS.calculatePriceChange zeroSeries = none := by
    simp [OSRS.calculatePriceChange, zeroSeries, jsDiv]
  have h2 : OSRS.calculateVolatility id zeroSeries = none := by
    simp [OSRS.calculateVolatility, zeroSeries, jsDiv]
  refine ⟨by simp [zeroSeries], by simp [zeroSeries], by simp [zeroSeries],
    ?_, h1, ?_, h2⟩
  · rw [h1]; simp
  · rw [h2]; simp

/-- Claim C4 (amended): the extractors have no division-by-zero guard
beyond the short-series check: for every series of ≥ 2 points whose first
price is 0, `calculatePriceChange` yields the non-finite JS value (`none`),
and for every series of ≥ 2 points whose mean price is 0,
`calculateVolatility` yields the non-finite JS value (`none`), for every
interpretation of `Math.sqrt`. -/
theorem claim4_amended :
    (∀ prices : List OSRS.PricePoint, 2 ≤ prices.length →
      prices.head?.map (·.price) = some 0 →
      OSRS.calculatePriceChange prices = none)
  ∧ (∀ (sqrt : ℚ → ℚ) (prices : List OSRS.PricePoint), 2 ≤ prices.length →
      (prices.map (·.price)).sum / (prices.length : ℚ) = 0 →
      OSRS.calculateVolatility sqrt prices = none) := by
  constructor
  · intro prices h2 hfirst
    unfold OSRS.calculatePriceChange
    rw [if_neg (by omega)]
    simp [hfirst, jsDiv]
  · intro sqrt prices h2 hmean
    unfold OSRS.calculateVolatility
    rw [if_neg (by omega)]
    simp only [List.length_map]
    simp [hmean, jsDiv]

/-- Witness for the amended C4 at the all-zero series. -/
theorem claim4_amended_witness :
    2 ≤ zeroSeries.length
  ∧ zeroSeries.head?.map (·.price) = some 0
  ∧ (zeroSeries.map (·.price)).sum / (zeroSeries.length : ℚ) = 0
  ∧ OSRS.calculatePriceChange zeroSeries = none
  ∧ OSRS.calculateVolatility id zeroSeries = none :=
  ⟨by simp [zeroSeries], by simp [zeroSeries], by simp [zeroSeries],
    claim4_amended.1 zeroSeries (by simp [zeroSeries]) (by simp [zeroSeries]),
    claim4_amended.2 id zeroSeries (by simp [zeroSeries]) (by simp [zeroSeries])⟩

/-- Claim C5: the candidate filters enforce the liquidity rule — every
entry accepted by the OSRS catalog filters and every result collected by
the EVE analysis loop has a finite affordable-unit count `u` with
`u ≤ 0.1 × dailyVolume` (for the loop, `volume` is the daily volume the
check used). -/
theorem claim5_liquidity_rule :
    (∀ (inc : Bool) (budget : ℚ) (item : OSRS.CatalogItem), 0 < budget →
      OSRS.filterItemV2 inc budget item = true →
      ∃ u : ℤ, jsUnits budget (item.price.getD 0) = some u
        ∧ (u : ℚ) ≤ item.volume.getD 0 * 0.1)
  ∧ (∀ (inc : Bool) (budget : ℚ) (item : OSRS.CatalogItem), 0 < budget →
      OSRS.filterItemV1 inc budget item = true →
      ∃ u : ℤ, jsUnits budget (item.price.getD 0) = some u
        ∧ (u : ℚ) ≤ item.volume.getD 0 * 0.1)
  ∧ (∀ (sqrt : ℚ → ℚ) (fetch : ℤ → Option (List EVE.MarketDay)) (budget : ℚ)
      (itemCount : ℕ) (items : List EVE.ItemInfo), 0 < budget →
      ∀ r ∈ (EVE.runLoop sqrt fetch budget itemCount items [] 0).1,
        ∃ u : ℤ, r.unitsCanBuy = some u ∧ (u : ℚ) ≤ r.volume * 0.1) := by
  refine ⟨?_, ?_, ?_⟩
  · intro inc budget item hb h
    simp only [OSRS.filterItemV2] at h
    split_ifs at h with h1 h2 h3 h4
    exact jsUnitsGt_eq_false hb (by simpa using h4)
  · intro inc budget item hb h
    simp only [OSRS.filterItemV1] at h
    split_ifs at h with h1 h2 h3 h4
    exact jsUnitsGt_eq_false hb (by simpa using h4)
  · intro sqrt fetch budget itemCount items hb r hr
    exact jsUnitsLe_eq_true hb
      (runLoop_mem sqrt fetch budget itemCount items [] 0 (by simp) r hr)

/-- Witness for C5 at a concrete accepted entry. -/
theorem claim5_witness :
    (0 : ℚ) < 1000
  ∧ OSRS.filterItemV2 true 1000 acceptedItem = true
  ∧ (∃ u : ℤ, jsUnits 1000 (acceptedItem.price.getD 0) = some u
      ∧ (u : ℚ) ≤ acceptedItem.volume.getD 0 * 0.1) := by
  have hfilter : OSRS.filterItemV2 true 1000 acceptedItem = true := by
    norm_num [OSRS.filterItemV2, acceptedItem, jsUnits, jsUnitsGt]
    decide
  exact ⟨by norm_num, hfilter,
    claim5_liquidity_rule.1 true 1000 acceptedItem (by norm_num) hfilter⟩

/-- Claim C7: the ranking of collected results (the `sort` by score
descending followed by `slice`) yields a list sorted by investment score
descending, is stable (for each score value the elements keep their
collection order), and is never longer than the requested count nor the
number of collected results — for the OSRS and the EVE variant alike. -/
theorem claim7_ranking (osrsResults : List OSRS.AnalysisResult)
    (eveResults : List EVE.AnalysisResult) (count : ℕ) :
    ((OSRS.topRecommendations osrsResults count).Sorted
        (fun a b => b.investmentScore ≤ a.investmentScore)
      ∧ (OSRS.topRecommendations osrsResults count).length ≤ count
      ∧ (OSRS.topRecommendations osrsResults count).length ≤ osrsResults.length
      ∧ ∀ q : ℚ,
          (OSRS.sortResults osrsResults).filter
              (fun r => decide (r.investmentScore = q))
            = osrsResults.filter (fun r => decide (r.investmentScore = q)))
  ∧ ((EVE.recommendations eveResults count).Sorted
        (fun a b => EVE.scoreOf b ≤ EVE.scoreOf a)
      ∧ (EVE.recommendations eveResults count).length ≤ count
      ∧ (EVE.recommendations eveResults count).length ≤ eveResults.length
      ∧ ∀ q : ℚ,
          (EVE.sortResults eveResults).filter
              (fun r => decide (EVE.scoreOf r = q))
            = eveResults.filter (fun r => decide (EVE.scoreOf r = q))) := by
  constructor
  · refine ⟨?_, ?_, ?_, fun q =>
      filter_insertionSort (fun r : OSRS.AnalysisResult => r.investmentScore) q osrsResults⟩
    · exact List.Pairwise.sublist (List.take_sublist _ _)
        (sorted_insertionSort_keyDesc
          (fun r : OSRS.AnalysisResult => r.investmentScore) osrsResults)
    · simpa [OSRS.topRecommendations, List.length_take] using
        min_le_left count (OSRS.sortResults osrsResults).length
    · simpa [OSRS.topRecommendations, OSRS.sortResults, List.length_take]
        using min_le_right count osrsResults.length
  · refine ⟨?_, ?_, ?_, fun q => filter_insertionSort EVE.scoreOf q eveResults⟩
    · exact List.Pairwise.sublist (List.take_sublist _ _)
        (sorted_insertionSort_keyDesc EVE.scoreOf eveResults)
    · simpa [EVE.recommendations, List.length_take] using
        min_le_left count (EVE.sortResults eveResults).length
    · simpa [EVE.recommendations, EVE.sortResults, List.length_take]
        using min_le_right count eveResults.length

/-- Claim C6: the budget parsers lowercase and trim their input, strip
commas, apply the case-insensitive `k`/`m`/`b` suffix multipliers
(×1e3/1e6/1e9), parse `"2.5m"`, `"500k"`, `"6b"` to 2500000, 500000 and
6000000000 (also through uppercase suffix, commas and surrounding spaces,
as `" 2,500K "` shows), and yield `NaN` (`none`, rejected by the caller's
validity check) for `"abc"` — and `parseISKAmount` behaves identically. -/
theorem claim6_budget_parsing :
    OSRS.parseGoldAmount "2.5m" = some 2500000
  ∧ OSRS.parseGoldAmount "500k" = some 500000
  ∧ OSRS.parseGoldAmount "6b" = some 6000000000
  ∧ OSRS.parseGoldAmount "abc" = none
  ∧ OSRS.parseGoldAmount " 2,500K " = some 2500000
  ∧ EVE.parseISKAmount "2.5m" = some 2500000
  ∧ EVE.parseISKAmount "500k" = some 500000
  ∧ EVE.parseISKAmount "6b" = some 6000000000
  ∧ EVE.parseISKAmount "abc" = none := by
  have h25 : jsParseFloat ['2', '.', '5', 'm'] = some (5 / 2) := by
    have hparts : jsParseFloatParts ['2', '.', '5', 'm']
        = some (false, ['2'], ['5'], 0) := by decide
    simp only [jsParseFloat, hparts, Option.map_some',
      (show natOfDigits ['2'] = 2 by decide), (show natOfDigits ['5'] = 5 by decide)]
    norm_num
  have h500 : jsParseFloat ['5', '0', '0', 'k'] = some 500 := by
    have hparts : jsParseFloatParts ['5', '0', '0', 'k']
        = some (false, ['5', '0', '0'], [], 0) := by decide
    simp only [jsParseFloat, hparts, Option.map_some',
      (show natOfDigits ['5', '0', '0'] = 500 by decide),
      (show natOfDigits [] = 0 by decide)]
    norm_num
  have h6 : jsParseFloat ['6', 'b'] = some 6 := by
    have hparts : jsParseFloatParts ['6', 'b'] = some (false, ['6'], [], 0) := by
      decide
    simp only [jsParseFloat, hparts, Option.map_some',
      (show natOfDigits ['6'] = 6 by decide), (show natOfDigits [] = 0 by decide)]
    norm_num
  have h2500 : jsParseFloat ['2', '5', '0', '0', 'k'] = some 2500 := by
    have hparts : jsParseFloatParts ['2', '5', '0', '0', 'k']
        = some (false, ['2', '5', '0', '0'], [], 0) := by decide
    simp only [jsParseFloat, hparts, Option.map_some',
      (show natOfDigits ['2', '5', '0', '0'] = 2500 by decide),
      (show natOfDigits [] = 0 by decide)]
    norm_num
  have habc : jsParseFloat ['a', 'b', 'c'] = none := by
    have hparts : jsParseFloatParts ['a', 'b', 'c'] = none := by decide
    simp [jsParseFloat, hparts]
  have ha : OSRS.parseGoldAmount "2.5m" = some 2500000 := by
    have hclean : (jsTrim ("2.5m".data.map Char.toLower)).filter (fun c => ¬ c = ',')
        = ['2', '.', '5', 'm'] := by decide
    simp only [OSRS.parseGoldAmount, hclean]
    rw [if_neg (by decide), if_pos (by decide), h25]
    norm_num
  have hb : OSRS.parseGoldAmount "500k" = some 500000 := by
    have hclean : (jsTrim ("500k".data.map Char.toLower)).filter (fun c => ¬ c = ',')
        = ['5', '0', '0', 'k'] := by decide
    simp only [OSRS.parseGoldAmount, hclean]
    rw [if_pos (by decide), h500]
    norm_num
  have hc : OSRS.parseGoldAmount "6b" = some 6000000000 := by
    have hclean : (jsTrim ("6b".data.map Char.toLower)).filter (fun c => ¬ c = ',')
        = ['6', 'b'] := by decide
    simp only [OSRS.parseGoldAmount, hclean]
    rw [if_neg (by decide), if_neg (by decide), if_pos (by decide), h6]
    norm_num
  have hd : OSRS.parseGoldAmount "abc" = none := by
    have hclean : (jsTrim ("abc".data.map Char.toLower)).filter (fun c => ¬ c = ',')
        = ['a', 'b', 'c'] := by decide
    simp only [OSRS.parseGoldAmount, hclean]
    rw [if_neg (by decide), if_neg (by decide), if_neg (by decide), habc]
  have he : OSRS.parseGoldAmount " 2,500K " = some 2500000 := by
    have hclean : (jsTrim (" 2,500K ".data.map Char.toLower)).filter (fun c => ¬ c = ',')
        = ['2', '5', '0', '0', 'k'] := by decide
    simp only [OSRS.parseGoldAmount, hclean]
    rw [if_pos (by decide), h2500]
    norm_num
  exact ⟨ha, hb, hc, hd, he, ha, hb, hc, hd⟩
